import Mathlib

/-!
Shallow embedding of the TitanCache benchmark driver (src/benchmark.py).

Real-valued quantities (Python floats, the uniform and Gaussian draws) are
modelled as exact rationals.  Randomness is made explicit: every function that
consumes draws from the random module takes those draws as parameters, with
hypotheses recording the sets the library draws them from (uniform draws lie
in [0,1)).  Fallible Python code is modelled with Except: a raised exception
becomes an error value that callers propagate.
-/

namespace TitanCache

/-- Base URL of the cache service, BASE_URL in benchmark.py. -/
def BASE_URL : String := "http://localhost:8080/api/cache"

/-- Python int() applied to a real value: truncation toward zero. -/
def pyInt (q : ℚ) : ℤ := if 0 ≤ q then ⌊q⌋ else ⌈q⌉

/-- Python round(x, 2) as used for the latency field. -/
def round2 (q : ℚ) : ℚ := ((round (q * 100) : ℤ) : ℚ) / 100

/-- random.gauss mu sigma: mu + sigma * z, where z is the underlying
standard-normal draw, taken as an explicit parameter. -/
def gauss (mu sigma z : ℚ) : ℚ := mu + sigma * z

/-- generate_payload from benchmark.py: size = int(random.gauss(mean, std));
the result is the string "X" repeated max(1, size) times. -/
def generate_payload (mean std z : ℚ) : String :=
  String.mk (List.replicate (max 1 (pyInt (gauss mean std z))).toNat 'X')

/-- One scenario configuration: an entry of SCENARIOS in benchmark.py. -/
structure Config where
  name : String
  requests : ℕ
  users : ℕ
  read_ratio : ℚ
  key_pattern : String
  payload_mean : ℚ
  payload_std : ℚ
  key_space : ℤ
deriving DecidableEq

/-- The random draws one call of get_key may consume: branch is the value of
the first random.random() call (the hot-branch selector, also the zipf U),
idx is the uniform draw in [0,1) backing the randint call. -/
structure KeyDraws where
  branch : ℚ
  idx : ℚ
deriving DecidableEq

/-- Python random.randint(a, b): raises ValueError (empty range for
randrange) when b < a; otherwise returns a uniform integer of [a, b],
modelled by the inverse CDF of the uniform draw u of [0,1). -/
def randint (a b : ℤ) (u : ℚ) : Except String ℤ :=
  if b < a then .error "empty range for randrange"
  else .ok (a + ⌊u * ((b : ℚ) - (a : ℚ) + 1)⌋)

/-- get_key from benchmark.py.  A fall-through (unknown pattern) returns
Python None, modelled as ok none; a raising randint propagates as error. -/
def get_key (config : Config) (d : KeyDraws) : Except String (Option String) :=
  let pattern := config.key_pattern
  let space := config.key_space
  if pattern = "uniform" then
    (randint 1 space d.idx).map (fun n => some ("user_" ++ toString n))
  else if pattern = "hot" then
    if d.branch < 9/10 then
      (randint 1 (pyInt ((space : ℚ) * 0.05)) d.idx).map
        (fun n => some ("user_" ++ toString n))
    else
      (randint 1 space d.idx).map (fun n => some ("user_" ++ toString n))
  else if pattern = "zipf" then
    .ok (some ("user_" ++ toString (max 1 (pyInt ((space : ℚ) * d.branch ^ 3)))))
  else
    .ok none

/-- Outcome of one HTTP dispatch, as seen by worker: either a fully received
response with its status code, or a transport-level exception. -/
inductive HttpOutcome where
  | response (status : ℕ)
  | transportError (msg : String)
deriving DecidableEq

/-- Is the outcome a transport-level exception? -/
def isTransportError : HttpOutcome → Bool
  | .transportError _ => true
  | .response _ => false

/-- The per-dispatch environment of one worker call: its random draws, the
network outcome and the wall-clock readings. -/
structure WorkerEnv where
  draws : KeyDraws
  z : ℚ
  u_op : ℚ
  outcome : HttpOutcome
  t_start : ℚ
  t_end : ℚ
  t_rec : ℚ
deriving DecidableEq

/-- One row appended to stats_list by worker (a RequestRecord). -/
structure RequestRecord where
  scenario : String
  timestamp : ℚ
  operation : String
  status : ℕ
  latency_ms : ℚ
  payload_bytes : ℕ
  key : Option String
deriving DecidableEq

/-- The shared mutable state of one scenario run: stats_list and the
error counter dictionary. -/
structure ScenarioState where
  stats_list : List RequestRecord
  error_count : ℕ
deriving DecidableEq

/-- The record worker appends on a successfully received response. -/
def workerRecord (config : Config) (env : WorkerEnv) (key : Option String)
    (status : ℕ) : RequestRecord :=
  { scenario := config.name
    timestamp := env.t_rec
    operation := if config.read_ratio < env.u_op then "WRITE" else "READ"
    status := status
    latency_ms := round2 ((env.t_end - env.t_start) * 1000)
    payload_bytes := (generate_payload config.payload_mean config.payload_std env.z).length
    key := key }

/-- worker from benchmark.py.  The key is sampled before the try block, so a
raising get_key propagates (second component some) without touching the
state; a transport error inside the try block increments the error counter
and appends nothing; a received response appends exactly one record. -/
def worker (config : Config) (env : WorkerEnv) (st : ScenarioState) :
    ScenarioState × Option String :=
  match get_key config env.draws with
  | .error e => (st, some e)
  | .ok key =>
    match env.outcome with
    | .transportError _ => ({ st with error_count := st.error_count + 1 }, none)
    | .response status =>
        ({ st with stats_list := st.stats_list ++ [workerRecord config env key status] }, none)

/-- An HTTP request as issued by worker. -/
inductive HttpRequest where
  | post (url : String) (key : Option String) (value : String)
  | get (url : String)
deriving DecidableEq

/-- Python str() of the key variable as interpolated into an f-string:
None renders as the four-character string None. -/
def pyStrOfKey : Option String → String
  | none => "None"
  | some s => s

/-- The request constructed in the try block of worker: a POST to /store
when random.random() > read_ratio, else a GET of /retrieve/{key}. -/
def worker_request (config : Config) (key : Option String) (value : String)
    (u_op : ℚ) : HttpRequest :=
  if config.read_ratio < u_op then
    .post (BASE_URL ++ "/store") key value
  else
    .get (BASE_URL ++ "/retrieve/" ++ pyStrOfKey key)

/-- Does get_key return normally (no exception)? -/
def keyOk : Except String (Option String) → Bool
  | .ok _ => true
  | .error _ => false

/-- First of two optional exceptions, modelling that the first raised
exception of a gathered batch is the one propagated. -/
def orE : Option String → Option String → Option String
  | some m, _ => some m
  | none, e => e

/-- Running a batch of workers over the shared state, threading the state
and keeping the first propagated exception. -/
def run_workers (config : Config) (envs : List WorkerEnv) (st : ScenarioState)
    (err : Option String) : ScenarioState × Option String :=
  match envs with
  | [] => (st, err)
  | e :: rest =>
      run_workers config rest (worker config e st).1 (orE err (worker config e st).2)

/-- Number of dispatches of a batch whose outcome is a transport error. -/
def countFailures (envs : List WorkerEnv) : ℕ :=
  envs.countP (fun e => isTransportError e.outcome)

/-- Python a % b on naturals: raises ZeroDivisionError when b = 0. -/
def pyMod (a b : ℕ) : Except String ℕ :=
  if b = 0 then .error "ZeroDivisionError: integer division or modulo by zero"
  else .ok (a % b)

/-- State of the batch loop of run_scenario: the pending tasks list, the
batches gathered so far (each batch the list of its request indices), and
the values i+1 at which a progress line was printed. -/
structure BatchState where
  tasks : List ℕ
  batches : List (List ℕ)
  progress : List ℕ
deriving DecidableEq

/-- One iteration of the loop "for i in range(total_reqs)" of run_scenario:
append worker i to tasks; when len(tasks) >= users, gather the batch, clear
tasks, and print a progress line when (i+1) % (total_reqs // 10) == 0 —
which raises ZeroDivisionError when total_reqs // 10 == 0. -/
def batchStep (total users : ℕ) (st : BatchState) (i : ℕ) :
    Except String BatchState :=
  let tasks := st.tasks ++ [i]
  if users ≤ tasks.length then
    match pyMod (i + 1) (total / 10) with
    | .error e => .error e
    | .ok r =>
        .ok ⟨[], st.batches ++ [tasks],
             if r = 0 then st.progress ++ [i + 1] else st.progress⟩
  else
    .ok ⟨tasks, st.batches, st.progress⟩

/-- The content of batchStep when total / 10 is nonzero, so that the modulo
cannot raise. -/
def stepP (total users : ℕ) (st : BatchState) (i : ℕ) : BatchState :=
  let tasks := st.tasks ++ [i]
  if users ≤ tasks.length then
    ⟨[], st.batches ++ [tasks],
     if (i + 1) % (total / 10) = 0 then st.progress ++ [i + 1] else st.progress⟩
  else
    ⟨tasks, st.batches, st.progress⟩

/-- Closed form of the loop state after n iterations: the pending tasks are
the tail of the current incomplete chunk, the batches are the n / users
completed chunks, and the progress points are the full-batch boundaries
divisible by total / 10. -/
def loopState (total users n : ℕ) : BatchState :=
  ⟨List.range' (users * (n / users)) (n % users),
   (List.range (n / users)).map (fun k => List.range' (users * k) users),
   (List.range n).filterMap
     (fun i => if (i + 1) % users = 0 ∧ (i + 1) % (total / 10) = 0
               then some (i + 1) else none)⟩

/-- The whole batch loop of run_scenario over range(total_reqs). -/
def batchLoop (total users : ℕ) : Except String BatchState :=
  (List.range total).foldlM (batchStep total users) ⟨[], [], []⟩

/-- run_scenario's batch execution: the loop followed by the final
"if tasks: await asyncio.gather(*tasks)".  Returns the executed batches in
order and the progress points, or the propagated exception. -/
def run_batches (total users : ℕ) : Except String (List (List ℕ) × List ℕ) :=
  match batchLoop total users with
  | .error e => .error e
  | .ok st =>
      .ok (if st.tasks.isEmpty then st.batches else st.batches ++ [st.tasks], st.progress)

/-- Closed form of the executed batches: total / users full batches of
exactly users consecutive indices, followed by one partial batch of
total % users indices when users does not divide total. -/
def expectedBatches (total users : ℕ) : List (List ℕ) :=
  (List.range (total / users)).map (fun k => List.range' (users * k) users) ++
    (if total % users = 0 then []
     else [List.range' (users * (total / users)) (total % users)])

/-- Closed form of the progress points: those batch boundaries i+1 that are
multiples of users and of total / 10. -/
def expectedProgress (total users : ℕ) : List ℕ :=
  (List.range total).filterMap
    (fun i => if (i + 1) % users = 0 ∧ (i + 1) % (total / 10) = 0
              then some (i + 1) else none)

/-- Payload length as the spec sentence states it: round-to-nearest of the
Gaussian draw, floored to a minimum of 1 byte.  Stated from the spec's
words, to be compared against generate_payload. -/
def specPayloadLen (g : ℚ) : ℕ := (max 1 (round g)).toNat

/-- Key produced by the zipf branch as the spec sentence states it:
user_N with N = max(1, floor(key_space * U^3)).  Stated from the spec's
words, to be compared against get_key. -/
def zipfKeySpec (space : ℤ) (u : ℚ) : String :=
  "user_" ++ toString (max 1 ⌊(space : ℚ) * u ^ 3⌋)

/-- Fixture: a scenario configuration with read_ratio 1 and uniform keys. -/
def cfgR1 : Config := ⟨"s", 10, 5, 1, "uniform", 64, 0, 50⟩

/-- Fixture: a dispatch environment whose request receives a 404 response. -/
def envOkRead : WorkerEnv := ⟨⟨0, 0⟩, 0, 0, .response 404, 0, 0, 0⟩

/-- Fixture: a dispatch environment whose request hits a transport error. -/
def envErr : WorkerEnv := ⟨⟨0, 0⟩, 0, 0, .transportError "timeout", 0, 0, 0⟩

/-- Fixture: the zipf scenario shape of benchmark.py (key_space 50000). -/
def cfgZipf : Config := ⟨"s", 10, 5, 1, "zipf", 64, 0, 50000⟩

/-- Fixture: a configuration with an unknown key pattern. -/
def cfgBogus : Config := ⟨"s", 1, 1, 1, "bogus", 64, 0, 50⟩

/-- The key result res is user_N with N drawn uniformly from [1, m] by the
draw u: N = 1 + floor(u*m) is in [1, m] and each value k of [1, m] is hit
exactly on the u-subinterval [(k-1)/m, k/m) of length 1/m. -/
def uniformKeyOn (res : Except String (Option String)) (m : ℤ) (u : ℚ) : Prop :=
  res = .ok (some ("user_" ++ toString (1 + ⌊u * (m : ℚ)⌋))) ∧
  1 ≤ 1 + ⌊u * (m : ℚ)⌋ ∧ 1 + ⌊u * (m : ℚ)⌋ ≤ m ∧
  ∀ k : ℤ, 1 ≤ k → k ≤ m →
    (1 + ⌊u * (m : ℚ)⌋ = k ↔ ((k : ℚ) - 1)/(m : ℚ) ≤ u ∧ u < (k : ℚ)/(m : ℚ))

/-- Fixture: a hot configuration over key_space 100 (hot subset size 5). -/
def cfgHot100 : Config := ⟨"s", 10, 5, 1, "hot", 64, 0, 100⟩

/-- Fixture: a hot configuration whose key_space 10 gives an empty hot
subset. -/
def cfgHotSmall : Config := ⟨"s", 10, 5, 1, "hot", 64, 0, 10⟩

/-- Fixture: a dispatch environment taking the hot branch. -/
def envHotSmall : WorkerEnv := ⟨⟨0, 0⟩, 0, 0, .response 200, 0, 0, 0⟩

/-- Length of the generated payload string, as a formula. -/
lemma generate_payload_length (mean std z : ℚ) :
    (generate_payload mean std z).length = (max 1 (pyInt (gauss mean std z))).toNat := by
  show (List.replicate _ 'X').length = _
  simp

/-- A worker whose key sampling raises propagates the exception and leaves
the shared state untouched. -/
lemma worker_key_error (config : Config) (env : WorkerEnv) (st : ScenarioState)
    (e : String) (hk : get_key config env.draws = .error e) :
    worker config env st = (st, some e) := by
  simp [worker, hk]

/-- A worker whose dispatch raises a transport error increments the error
counter, appends nothing, and propagates nothing. -/
lemma worker_transport (config : Config) (env : WorkerEnv) (st : ScenarioState)
    (key : Option String) (m : String)
    (hk : get_key config env.draws = .ok key)
    (ho : env.outcome = .transportError m) :
    worker config env st = ({ st with error_count := st.error_count + 1 }, none) := by
  simp [worker, hk, ho]

/-- A worker that receives a response appends exactly one record and leaves
the error counter alone. -/
lemma worker_response (config : Config) (env : WorkerEnv) (st : ScenarioState)
    (key : Option String) (s : ℕ)
    (hk : get_key config env.draws = .ok key)
    (ho : env.outcome = .response s) :
    worker config env st =
      ({ st with stats_list := st.stats_list ++ [workerRecord config env key s] }, none) := by
  simp [worker, hk, ho]

/-- Bookkeeping invariant of a batch in which no key sampling raises:
records plus transport failures account for every dispatch, the error
counter grows by exactly the number of failures, no exception propagates,
and every new record is the workerRecord of a dispatch that received a
response. -/
lemma run_workers_spec (config : Config) :
    ∀ (envs : List WorkerEnv) (st : ScenarioState),
    (∀ e ∈ envs, keyOk (get_key config e.draws) = true) →
    ((run_workers config envs st none).1.stats_list.length + countFailures envs
        = st.stats_list.length + envs.length) ∧
    (run_workers config envs st none).1.error_count
        = st.error_count + countFailures envs ∧
    (run_workers config envs st none).2 = none ∧
    (∀ r ∈ (run_workers config envs st none).1.stats_list,
        r ∈ st.stats_list ∨
        ∃ e ∈ envs, ∃ key s, get_key config e.draws = .ok key ∧
          e.outcome = .response s ∧ r = workerRecord config e key s) := by
  intro envs
  induction envs with
  | nil => intro st _; simp [run_workers, countFailures]
  | cons e rest ih =>
    intro st h
    have hke : keyOk (get_key config e.draws) = true := h e (by simp)
    have hrest : ∀ x ∈ rest, keyOk (get_key config x.draws) = true :=
      fun x hx => h x (by simp [hx])
    cases hgk : get_key config e.draws with
    | error m => rw [hgk] at hke; simp [keyOk] at hke
    | ok key =>
      cases ho : e.outcome with
      | transportError m =>
        have hcount : countFailures (e :: rest) = countFailures rest + 1 := by
          simp [countFailures, List.countP_cons, ho, isTransportError]
        have hw := worker_transport config e st key m hgk ho
        have hrun : run_workers config (e :: rest) st none
            = run_workers config rest { st with error_count := st.error_count + 1 } none := by
          simp [run_workers, hw, orE]
        obtain ⟨h1, h2, h3, h4⟩ := ih { st with error_count := st.error_count + 1 } hrest
        rw [hrun, hcount]
        refine ⟨by simp at h1 ⊢; omega, by simp at h2 ⊢; omega, h3, ?_⟩
        intro r hr
        rcases h4 r hr with hmem | ⟨x, hx, key', s', hk', ho', hr'⟩
        · exact Or.inl hmem
        · exact Or.inr ⟨x, by simp [hx], key', s', hk', ho', hr'⟩
      | response s =>
        have hcount : countFailures (e :: rest) = countFailures rest := by
          simp [countFailures, List.countP_cons, ho, isTransportError]
        have hw := worker_response config e st key s hgk ho
        have hrun : run_workers config (e :: rest) st none
            = run_workers config rest
                { st with stats_list := st.stats_list ++ [workerRecord config e key s] } none := by
          simp [run_workers, hw, orE]
        obtain ⟨h1, h2, h3, h4⟩ := ih
          { st with stats_list := st.stats_list ++ [workerRecord config e key s] } hrest
        rw [hrun, hcount]
        refine ⟨by simp at h1 ⊢; omega, by simp at h2 ⊢; omega, h3, ?_⟩
        intro r hr
        rcases h4 r hr with hmem | ⟨x, hx, key', s', hk', ho', hr'⟩
        · simp at hmem
          rcases hmem with hmem | hmem
          · exact Or.inl hmem
          · exact Or.inr ⟨e, by simp, key, s, hgk, ho, hmem⟩
        · exact Or.inr ⟨x, by simp [hx], key', s', hk', ho', hr'⟩




/-- C1: in a scenario run of requests dispatches of which F raise a
transport-level exception (and whose key sampling succeeds), exactly
requests - F records are appended and the error counter ends at F; moreover
any dispatch that receives a response of any status appends exactly one
record carrying that status and leaves the error counter unchanged. -/
theorem c1_error_accounting (config : Config) (envs : List WorkerEnv)
    (h : ∀ e ∈ envs, keyOk (get_key config e.draws) = true) :
    (run_workers config envs ⟨[], 0⟩ none).1.stats_list.length
        = envs.length - countFailures envs ∧
    (run_workers config envs ⟨[], 0⟩ none).1.error_count = countFailures envs ∧
    (run_workers config envs ⟨[], 0⟩ none).2 = none ∧
    (∀ env st key s, get_key config env.draws = .ok key →
        env.outcome = .response s →
        (worker config env st).1.stats_list
            = st.stats_list ++ [workerRecord config env key s] ∧
        (workerRecord config env key s).status = s ∧
        (worker config env st).1.error_count = st.error_count ∧
        (worker config env st).2 = none) := by
  obtain ⟨h1, h2, h3, _⟩ := run_workers_spec config envs ⟨[], 0⟩ h
  have hle : countFailures envs ≤ envs.length := List.countP_le_length _
  refine ⟨by simp at h1; omega, by simpa using h2, h3, ?_⟩
  intro env st key s hk ho
  rw [worker_response config env st key s hk ho]
  exact ⟨rfl, rfl, rfl, rfl⟩

/-- Witness for C1 on a concrete two-dispatch run: one 404 response, one
transport error. -/
theorem c1_error_accounting_w :
    (run_workers cfgR1 [envOkRead, envErr] ⟨[], 0⟩ none).1.stats_list.length
        = [envOkRead, envErr].length - countFailures [envOkRead, envErr] ∧
    (run_workers cfgR1 [envOkRead, envErr] ⟨[], 0⟩ none).1.error_count
        = countFailures [envOkRead, envErr] ∧
    (run_workers cfgR1 [envOkRead, envErr] ⟨[], 0⟩ none).2 = none ∧
    (∀ env st key s, get_key cfgR1 env.draws = .ok key →
        env.outcome = .response s →
        (worker cfgR1 env st).1.stats_list
            = st.stats_list ++ [workerRecord cfgR1 env key s] ∧
        (workerRecord cfgR1 env key s).status = s ∧
        (worker cfgR1 env st).1.error_count = st.error_count ∧
        (worker cfgR1 env st).2 = none) :=
  c1_error_accounting cfgR1 [envOkRead, envErr] (by
    intro e he
    simp only [List.mem_cons, List.mem_singleton, List.not_mem_nil, or_false] at he
    rcases he with h | h <;> subst h <;>
      simp [get_key, cfgR1, envOkRead, envErr, randint, keyOk, Except.map])

/-- C8: the generated payload is at least 1 byte long, for every mean and
standard deviation and every Gaussian draw, negative and zero included. -/
theorem c8_payload_min_length (mean std z : ℚ) :
    1 ≤ (generate_payload mean std z).length := by
  have h1 : (1 : ℤ) ≤ max 1 (pyInt (gauss mean std z)) := le_max_left _ _
  have h2 : (generate_payload mean std z).length
      = (max 1 (pyInt (gauss mean std z))).toNat := by
    simp [generate_payload]
  omega

/-- C4 counterexample: at mean 2.7 with std 0 the Gaussian draw is exactly
2.7; the code truncates toward zero and builds a 2-byte payload, while the
claimed round-to-nearest length is 3. -/
theorem c4_payload_cex :
    (generate_payload (27/10) 0 0).length = 2 ∧
    specPayloadLen (gauss (27/10) 0 0) = 3 ∧
    (generate_payload (27/10) 0 0).length ≠ specPayloadLen (gauss (27/10) 0 0) := by
  have h1 : (generate_payload (27/10) 0 0).length = 2 := by
    rw [generate_payload_length]
    norm_num [pyInt, gauss]
    decide
  have h2 : specPayloadLen (gauss (27/10) 0 0) = 3 := by
    norm_num [specPayloadLen, gauss, round_eq]
    decide
  exact ⟨h1, h2, by rw [h1, h2]; decide⟩

/-- C4 (amended): the payload length is max(1, t) where t is the Gaussian
draw truncated toward zero (Python int), not rounded to nearest; when
std = 0 the draw equals the mean, so every payload has the fixed length
max(1, trunc(mean)). -/
theorem c4_payload_amended (mean std z : ℚ) :
    (generate_payload mean std z).length = (max 1 (pyInt (gauss mean std z))).toNat ∧
    (std = 0 → (generate_payload mean std z).length = (max 1 (pyInt mean)).toNat) := by
  have hlen : (generate_payload mean std z).length
      = (max 1 (pyInt (gauss mean std z))).toNat := by
    simp [generate_payload]
  refine ⟨hlen, fun h => ?_⟩
  rw [hlen, h]
  simp [gauss]

/-- Witness for C4 (amended) at mean 2.7, std 0. -/
theorem c4_payload_w :
    (generate_payload (27/10) 0 5).length = (max 1 (pyInt ((27 : ℚ)/10))).toNat :=
  (c4_payload_amended (27/10) 0 5).2 rfl

/-- C7: with pattern zipf and a uniform draw U of [0,1), get_key returns
exactly user_N with N = max(1, floor(key_space * U^3)), the spec's
cube-of-uniform formula with minimum clamp 1. -/
theorem c7_zipf_formula (config : Config) (hp : config.key_pattern = "zipf")
    (hs : 0 ≤ config.key_space) (d : KeyDraws)
    (h0 : 0 ≤ d.branch) (h1 : d.branch < 1) :
    get_key config d = .ok (some (zipfKeySpec config.key_space d.branch)) := by
  have hnn : 0 ≤ (config.key_space : ℚ) * d.branch ^ 3 :=
    mul_nonneg (by exact_mod_cast hs) (pow_nonneg h0 3)
  have hpi : pyInt ((config.key_space : ℚ) * d.branch ^ 3)
      = ⌊(config.key_space : ℚ) * d.branch ^ 3⌋ := by
    simp [pyInt, hnn]
  simp [get_key, hp, zipfKeySpec, hpi]


/-- Witness for C7 at U = 1/2 over key_space 50000. -/
theorem c7_zipf_formula_w :
    get_key cfgZipf ⟨1/2, 0⟩ = .ok (some (zipfKeySpec cfgZipf.key_space (1/2))) :=
  c7_zipf_formula cfgZipf rfl (by decide) ⟨1/2, 0⟩
    (by show (0:ℚ) ≤ 1/2; norm_num) (by show (1:ℚ)/2 < 1; norm_num)

/-- C10: a pattern outside uniform, hot, zipf is not validated: get_key
falls through and returns None; the dispatcher then issues the request with
the absent key — a READ becomes GET of /retrieve/None — and a received
response is recorded with key None. -/
theorem c10_unknown_pattern (config : Config)
    (h1 : config.key_pattern ≠ "uniform") (h2 : config.key_pattern ≠ "hot")
    (h3 : config.key_pattern ≠ "zipf") :
    (∀ d : KeyDraws, get_key config d = .ok none) ∧
    (∀ value u_op, ¬ config.read_ratio < u_op →
        worker_request config none value u_op = .get (BASE_URL ++ "/retrieve/None")) ∧
    (∀ env st s, env.outcome = .response s →
        worker config env st
          = ({ st with stats_list := st.stats_list ++ [workerRecord config env none s] },
             none) ∧
        (workerRecord config env none s).key = none) := by
  have hk : ∀ d : KeyDraws, get_key config d = .ok none := by
    intro d; simp [get_key, h1, h2, h3]
  refine ⟨hk, ?_, ?_⟩
  · intro value u_op hu
    simp only [worker_request, if_neg hu]
    decide
  · intro env st s ho
    exact ⟨worker_response config env st none s (hk env.draws) ho, rfl⟩


/-- Witness for C10 on the unknown pattern bogus. -/
theorem c10_unknown_pattern_w : get_key cfgBogus ⟨0, 0⟩ = .ok none :=
  (c10_unknown_pattern cfgBogus (by decide) (by decide) (by decide)).1 ⟨0, 0⟩

/-- C5: a dispatch is a WRITE exactly when its fresh uniform draw exceeds
read_ratio and a READ otherwise; with read_ratio = 1 a 10-dispatch run whose
draws lie in [0,1), with keys sampled normally and all responses received,
yields 10 records, all READ, and an error count of 0. -/
theorem c5_op_choice (config : Config) :
    (∀ env st key s, get_key config env.draws = .ok key →
        env.outcome = .response s →
        (worker config env st).1.stats_list
            = st.stats_list ++ [workerRecord config env key s] ∧
        ((workerRecord config env key s).operation = "WRITE"
            ↔ config.read_ratio < env.u_op) ∧
        ((workerRecord config env key s).operation = "READ"
            ↔ ¬ config.read_ratio < env.u_op)) ∧
    (config.read_ratio = 1 →
      ∀ envs : List WorkerEnv, envs.length = 10 →
        (∀ e ∈ envs, (0 ≤ e.u_op ∧ e.u_op < 1) ∧
            keyOk (get_key config e.draws) = true ∧
            isTransportError e.outcome = false) →
        (run_workers config envs ⟨[], 0⟩ none).1.stats_list.length = 10 ∧
        (∀ r ∈ (run_workers config envs ⟨[], 0⟩ none).1.stats_list,
            r.operation = "READ") ∧
        (run_workers config envs ⟨[], 0⟩ none).1.error_count = 0) := by
  constructor
  · intro env st key s hk ho
    refine ⟨by rw [worker_response config env st key s hk ho], ?_, ?_⟩ <;>
      by_cases h : config.read_ratio < env.u_op <;> simp [workerRecord, h]
  · intro hr envs hlen h
    have hko : ∀ e ∈ envs, keyOk (get_key config e.draws) = true :=
      fun e he => (h e he).2.1
    obtain ⟨h1, h2, _, h4⟩ := run_workers_spec config envs ⟨[], 0⟩ hko
    have hcf : countFailures envs = 0 := by
      rw [countFailures, List.countP_eq_zero]
      intro e he
      simp [(h e he).2.2]
    refine ⟨by simp [hcf, hlen] at h1; simpa using h1, ?_, by simp [hcf] at h2; simpa using h2⟩
    intro r hr'
    rcases h4 r hr' with hmem | ⟨e, he, key, s, _, _, hrec⟩
    · simp at hmem
    · have hu := (h e he).1
      have hnot : ¬ config.read_ratio < e.u_op := by
        rw [hr]
        exact not_lt.mpr (le_of_lt hu.2)
      rw [hrec]
      simp [workerRecord, hnot]

/-- Witness for C5: ten uniform READ dispatches with read_ratio 1. -/
theorem c5_op_choice_w :
    (run_workers cfgR1 (List.replicate 10 envOkRead) ⟨[], 0⟩ none).1.stats_list.length = 10 ∧
    (∀ r ∈ (run_workers cfgR1 (List.replicate 10 envOkRead) ⟨[], 0⟩ none).1.stats_list,
        r.operation = "READ") ∧
    (run_workers cfgR1 (List.replicate 10 envOkRead) ⟨[], 0⟩ none).1.error_count = 0 :=
  (c5_op_choice cfgR1).2 rfl (List.replicate 10 envOkRead) (by simp)
    (by
      intro e he
      have he' := List.eq_of_mem_replicate he
      subst he'
      refine ⟨⟨by norm_num [envOkRead], by norm_num [envOkRead]⟩, ?_, rfl⟩
      simp [envOkRead, get_key, cfgR1, randint, keyOk, Except.map])

/-- The key drawn by randint(1, m) on a uniform u of [0,1): it is
1 + floor(u*m), it lies in [1, m], and it equals k exactly when u falls in
[(k-1)/m, k/m), an interval of length 1/m — so the m values are
equiprobable under the uniform draw. -/
lemma randint_one_uniform (m : ℤ) (hm : 1 ≤ m) (u : ℚ) (h0 : 0 ≤ u) (h1 : u < 1) :
    randint 1 m u = .ok (1 + ⌊u * (m : ℚ)⌋) ∧
    1 ≤ 1 + ⌊u * (m : ℚ)⌋ ∧ 1 + ⌊u * (m : ℚ)⌋ ≤ m ∧
    (∀ k : ℤ, 1 ≤ k → k ≤ m →
      (1 + ⌊u * (m : ℚ)⌋ = k
        ↔ ((k : ℚ) - 1)/(m : ℚ) ≤ u ∧ u < (k : ℚ)/(m : ℚ))) := by
  have hm0 : (0 : ℚ) < (m : ℚ) := by exact_mod_cast lt_of_lt_of_le zero_lt_one hm
  have heq : randint 1 m u = .ok (1 + ⌊u * ((m : ℚ) - 1 + 1)⌋) := by
    simp [randint, not_lt.mpr hm]
  have hmm : (m : ℚ) - 1 + 1 = (m : ℚ) := by ring
  rw [hmm] at heq
  have hlow : 0 ≤ ⌊u * (m : ℚ)⌋ :=
    Int.le_floor.mpr (by push_cast; exact mul_nonneg h0 (le_of_lt hm0))
  have hhigh : ⌊u * (m : ℚ)⌋ < m := by
    apply Int.floor_lt.mpr
    calc u * (m : ℚ) < 1 * (m : ℚ) := mul_lt_mul_of_pos_right h1 hm0
      _ = (m : ℚ) := one_mul _
  refine ⟨heq, by omega, by omega, ?_⟩
  intro k hk1 hkm
  have hsplit : (1 + ⌊u * (m : ℚ)⌋ = k) ↔ ⌊u * (m : ℚ)⌋ = k - 1 := by omega
  rw [hsplit, Int.floor_eq_iff]
  constructor
  · rintro ⟨ha, hb⟩
    push_cast at ha hb
    constructor
    · rw [div_le_iff hm0]; linarith
    · rw [lt_div_iff hm0]; linarith
  · rintro ⟨ha, hb⟩
    rw [div_le_iff hm0] at ha
    rw [lt_div_iff hm0] at hb
    constructor
    · push_cast; linarith
    · push_cast; linarith


/-- C6: with pattern hot, the hot branch is selected exactly on the uniform
subinterval [0, 9/10) of the branch draw — probability 0.9 — and then the
key is drawn uniformly from [1, floor(key_space*0.05)]; on the complementary
event it is drawn uniformly from [1, key_space]. -/
theorem c6_hot_sampler (config : Config) (hp : config.key_pattern = "hot")
    (hs : 0 ≤ config.key_space) (d : KeyDraws)
    (hb0 : 0 ≤ d.branch) (hb1 : d.branch < 1)
    (hi0 : 0 ≤ d.idx) (hi1 : d.idx < 1) :
    (Set.Ico (0 : ℚ) 1 ∩ {u : ℚ | u < 9/10} = Set.Ico 0 (9/10)) ∧
    (d.branch < 9/10 → 1 ≤ ⌊(config.key_space : ℚ) * 0.05⌋ →
        uniformKeyOn (get_key config d) ⌊(config.key_space : ℚ) * 0.05⌋ d.idx) ∧
    (¬ d.branch < 9/10 → 1 ≤ config.key_space →
        uniformKeyOn (get_key config d) config.key_space d.idx) := by
  have hpi : pyInt ((config.key_space : ℚ) * 0.05)
      = ⌊(config.key_space : ℚ) * 0.05⌋ := by
    have hnn : (0 : ℚ) ≤ (config.key_space : ℚ) * 0.05 :=
      mul_nonneg (by exact_mod_cast hs) (by norm_num)
    simp [pyInt, hnn]
  refine ⟨?_, ?_, ?_⟩
  · ext u
    simp only [Set.mem_inter_iff, Set.mem_Ico, Set.mem_setOf_eq]
    constructor
    · rintro ⟨⟨hu0, _⟩, hu9⟩
      exact ⟨hu0, hu9⟩
    · rintro ⟨hu0, hu9⟩
      exact ⟨⟨hu0, lt_trans hu9 (by norm_num)⟩, hu9⟩
  · intro hb hm
    obtain ⟨he, hlo, hhi, hiff⟩ :=
      randint_one_uniform ⌊(config.key_space : ℚ) * 0.05⌋ hm d.idx hi0 hi1
    refine ⟨?_, hlo, hhi, hiff⟩
    simp [get_key, hp, hb, hpi, he, Except.map]
  · intro hb hsp
    obtain ⟨he, hlo, hhi, hiff⟩ :=
      randint_one_uniform config.key_space hsp d.idx hi0 hi1
    refine ⟨?_, hlo, hhi, hiff⟩
    simp [get_key, hp, hb, he, Except.map]


/-- Witness for C6: hot branch taken (branch draw 0) with idx draw 1/2. -/
theorem c6_hot_sampler_w :
    uniformKeyOn (get_key cfgHot100 ⟨0, 1/2⟩) ⌊(cfgHot100.key_space : ℚ) * 0.05⌋ (1/2) :=
  (c6_hot_sampler cfgHot100 rfl (by decide) ⟨0, 1/2⟩
      (show (0 : ℚ) ≤ 0 by norm_num) (show (0 : ℚ) < 1 by norm_num)
      (show (0 : ℚ) ≤ 1/2 by norm_num) (show (1 : ℚ)/2 < 1 by norm_num)).2.1
    (show (0 : ℚ) < 9/10 by norm_num)
    (show (1 : ℤ) ≤ ⌊(100 : ℚ) * 0.05⌋ by norm_num)

/-- Once an exception has been propagated, the batch keeps it. -/
lemma run_workers_err (config : Config) :
    ∀ (envs : List WorkerEnv) (st : ScenarioState) (m : String),
      (run_workers config envs st (some m)).2 = some m := by
  intro envs
  induction envs with
  | nil => intro st m; rfl
  | cons e rest ih =>
    intro st m
    rw [run_workers]
    simpa [orE] using ih (worker config e st).1 m

/-- A batch containing a dispatch whose key sampling raises ends with a
propagated exception. -/
lemma run_workers_abort (config : Config) (env : WorkerEnv) (e : String)
    (he : get_key config env.draws = .error e) :
    ∀ (pre post : List WorkerEnv) (st : ScenarioState),
      (run_workers config (pre ++ env :: post) st none).2.isSome = true := by
  intro pre
  induction pre with
  | nil =>
    intro post st
    rw [List.nil_append, run_workers, worker_key_error config env st e he]
    simp [orE, run_workers_err]
  | cons x rest ih =>
    intro post st
    rw [List.cons_append, run_workers]
    cases hp2 : (worker config x st).2 with
    | none => simpa [orE, hp2] using ih post (worker config x st).1
    | some m => simp [orE, hp2, run_workers_err]

/-- C9: with pattern hot and key_space < 20, the hot subset bound
floor(key_space*0.05) is 0, so the hot branch raises on its empty randint
range; the exception occurs before the worker's try block, so it is not
counted, produces no record, propagates out of the worker, and makes the
whole batch fail. -/
theorem c9_hot_small_space_raises (config : Config) (hp : config.key_pattern = "hot")
    (hs0 : 0 ≤ config.key_space) (hs : config.key_space < 20)
    (env : WorkerEnv) (hb : env.draws.branch < 9/10) (st : ScenarioState) :
    get_key config env.draws = .error "empty range for randrange" ∧
    worker config env st = (st, some "empty range for randrange") ∧
    (∀ pre post : List WorkerEnv,
        (run_workers config (pre ++ env :: post) st none).2.isSome = true) := by
  have hcast : (config.key_space : ℚ) < 20 := by exact_mod_cast hs
  have hsmall : (config.key_space : ℚ) * 0.05 < 1 := by linarith
  have hpi : pyInt ((config.key_space : ℚ) * 0.05)
      = ⌊(config.key_space : ℚ) * 0.05⌋ := by
    have hnn : (0 : ℚ) ≤ (config.key_space : ℚ) * 0.05 :=
      mul_nonneg (by exact_mod_cast hs0) (by norm_num)
    simp [pyInt, hnn]
  have hflt : ⌊(config.key_space : ℚ) * 0.05⌋ < 1 := Int.floor_lt.mpr (by push_cast; linarith)
  have hkey : get_key config env.draws = .error "empty range for randrange" := by
    simp [get_key, hp, hb, hpi, randint, hflt, Except.map]
  exact ⟨hkey, worker_key_error config env st _ hkey,
    fun pre post => run_workers_abort config env _ hkey pre post st⟩



/-- Witness for C9: the hot branch over key_space 10 propagates the randint
exception with the state untouched. -/
theorem c9_hot_small_space_raises_w :
    worker cfgHotSmall envHotSmall ⟨[], 0⟩ = (⟨[], 0⟩, some "empty range for randrange") :=
  (c9_hot_small_space_raises cfgHotSmall rfl (by decide) (by decide) envHotSmall
      (show (0 : ℚ) < 9/10 by norm_num) ⟨[], 0⟩).2.1

/-- When total / 10 is nonzero the loop body cannot raise. -/
lemma batchStep_ok (total users : ℕ) (ht : total / 10 ≠ 0) (st : BatchState) (i : ℕ) :
    batchStep total users st i = .ok (stepP total users st i) := by
  have hpm : pyMod (i + 1) (total / 10) = .ok ((i + 1) % (total / 10)) := by
    simp [pyMod, ht]
  by_cases hc : users ≤ (st.tasks ++ [i]).length
  · simp only [batchStep, stepP, hpm, if_pos hc]
  · simp only [batchStep, stepP, if_neg hc]

/-- The monadic fold collapses to a pure fold when total / 10 is nonzero. -/
lemma foldlM_batchStep (total users : ℕ) (ht : total / 10 ≠ 0) :
    ∀ (l : List ℕ) (st : BatchState),
      l.foldlM (batchStep total users) st = .ok (l.foldl (stepP total users) st) := by
  intro l
  induction l with
  | nil => intro st; rfl
  | cons a l ih =>
    intro st
    rw [List.foldlM_cons, batchStep_ok total users ht, List.foldl_cons]
    exact ih (stepP total users st a)

/-- One pure step advances the closed-form loop state. -/
lemma stepP_eq (total users n : ℕ) (hu : 1 ≤ users) :
    stepP total users (loopState total users n) n = loopState total users (n + 1) := by
  have hdm : users * (n / users) + n % users = n := Nat.div_add_mod n users
  have hmlt : n % users < users := Nat.mod_lt n (by omega)
  have htasks : List.range' (users * (n / users)) (n % users) ++ [n]
      = List.range' (users * (n / users)) (n % users + 1) := by
    rw [List.range'_concat]
    congr 2
    omega
  by_cases hfull : n % users + 1 = users
  · have hx : users * (n / users + 1) = users * (n / users) + users := by ring
    have hn1 : n + 1 = users * (n / users + 1) := by omega
    have h1 : (n + 1) / users = n / users + 1 := by
      rw [hn1, Nat.mul_div_cancel_left _ (show 0 < users by omega)]
    have h2 : (n + 1) % users = 0 := by rw [hn1]; exact Nat.mul_mod_right users _
    simp only [stepP, loopState, htasks]
    rw [if_pos (by simp [List.length_range']; omega)]
    simp only [BatchState.mk.injEq]
    refine ⟨by rw [h1, h2]; simp, ?_, ?_⟩
    · rw [h1, List.range_succ, List.map_append, hfull]
      simp
    · rw [List.range_succ, List.filterMap_append]
      by_cases hpr : (n + 1) % (total / 10) = 0 <;> simp [hpr, h2]
  · have hlt : n % users + 1 < users := by omega
    have hn1 : n + 1 = users * (n / users) + (n % users + 1) := by omega
    have h1 : (n + 1) / users = n / users := by
      rw [hn1, Nat.mul_add_div (show 0 < users by omega), Nat.div_eq_of_lt hlt, add_zero]
    have h2 : (n + 1) % users = n % users + 1 := by
      rw [hn1, Nat.mul_add_mod, Nat.mod_eq_of_lt hlt]
    simp only [stepP, loopState, htasks]
    rw [if_neg (by simp [List.length_range']; omega)]
    simp only [BatchState.mk.injEq]
    refine ⟨by rw [h1, h2], by rw [h1], ?_⟩
    rw [List.range_succ, List.filterMap_append]
    simp [h2]

/-- The pure fold over range n lands exactly on the closed-form state. -/
lemma loop_inv (total users : ℕ) (hu : 1 ≤ users) (n : ℕ) :
    (List.range n).foldl (stepP total users) ⟨[], [], []⟩ = loopState total users n := by
  induction n with
  | zero => simp [loopState]
  | succ n ih =>
    rw [List.range_succ, List.foldl_append, ih, List.foldl_cons, List.foldl_nil]
    exact stepP_eq total users n hu

/-- The batch loop terminates normally on the closed-form state whenever
users ≥ 1 and total ≥ 10. -/
lemma batchLoop_eq (total users : ℕ) (hu : 1 ≤ users) (ht : total / 10 ≠ 0) :
    batchLoop total users = .ok (loopState total users total) := by
  rw [batchLoop, foldlM_batchStep total users ht, loop_inv total users hu total]

/-- Flattening the full chunks recovers the initial segment of indices. -/
lemma chunks_flatten (users : ℕ) :
    ∀ q : ℕ, ((List.range q).map (fun k => List.range' (users * k) users)).flatten
      = List.range' 0 (users * q) := by
  intro q
  induction q with
  | zero => simp
  | succ q ih =>
    rw [List.range_succ, List.map_append, List.flatten_append, ih]
    have h := List.range'_append 0 (users * q) users 1
    simp only [one_mul, zero_add] at h
    simp only [List.map_cons, List.map_nil, List.flatten_cons, List.flatten_nil,
      List.append_nil, h]
    congr 1
    ring

/-- run_scenario's batch execution computes the closed forms of batches and
progress whenever users ≥ 1 and requests ≥ 10. -/
lemma run_batches_eq (total users : ℕ) (hu : 1 ≤ users) (ht : 10 ≤ total) :
    run_batches total users
      = .ok (expectedBatches total users, expectedProgress total users) := by
  have ht10 : total / 10 ≠ 0 := by omega
  rw [run_batches, batchLoop_eq total users hu ht10]
  simp only [loopState, expectedBatches, expectedProgress]
  by_cases hmod : total % users = 0
  · simp [hmod]
  · have hne : (List.range' (users * (total / users)) (total % users)).isEmpty = false := by
      simp [List.isEmpty_iff, List.range'_eq_nil, hmod]
    simp [hmod, hne]

/-- C2 counterexample: at requests 4 and users 2 the run does not partition
the 4 dispatches into 2 batches — after the first batch resolves, the
progress check computes (i+1) % (4 // 10) and raises ZeroDivisionError, so
the second batch never executes. -/
theorem c2_batches_cex :
    run_batches 4 2 = .error "ZeroDivisionError: integer division or modulo by zero" := by
  rfl

/-- C2 (amended): provided requests ≥ 10 (below that, a completing full
batch raises ZeroDivisionError in the progress check) and users ≥ 1, the
loop partitions the requests into consecutive batches: the flattened batches
are exactly the requests in order; when users divides requests there are
exactly requests / users batches, each of exactly users dispatches; otherwise
one extra final partial batch of requests % users dispatches is executed and
included. -/
theorem c2_batches_amended (total users : ℕ) (hu : 1 ≤ users) (ht : 10 ≤ total) :
    run_batches total users
        = .ok (expectedBatches total users, expectedProgress total users) ∧
    (expectedBatches total users).flatten = List.range total ∧
    (users ∣ total →
        (expectedBatches total users).length = total / users ∧
        ∀ b ∈ expectedBatches total users, b.length = users) ∧
    (¬ users ∣ total →
        (expectedBatches total users).length = total / users + 1 ∧
        (expectedBatches total users).getLast?
            = some (List.range' (users * (total / users)) (total % users)) ∧
        (List.range' (users * (total / users)) (total % users)).length = total % users ∧
        ∀ b ∈ (expectedBatches total users).dropLast, b.length = users) := by
  have hdm : users * (total / users) + total % users = total := Nat.div_add_mod total users
  refine ⟨run_batches_eq total users hu ht, ?_, ?_, ?_⟩
  · rw [expectedBatches]
    by_cases hmod : total % users = 0
    · rw [if_pos hmod]
      rw [List.append_nil, chunks_flatten, List.range_eq_range']
      congr 1
      omega
    · rw [if_neg hmod, List.flatten_append, chunks_flatten]
      simp only [List.flatten_cons, List.flatten_nil, List.append_nil]
      have h := List.range'_append 0 (users * (total / users)) (total % users) 1
      simp only [one_mul, zero_add] at h
      rw [h, List.range_eq_range']
      congr 1
      omega
  · intro hdvd
    have hmod : total % users = 0 := by
      obtain ⟨c, rfl⟩ := hdvd
      exact Nat.mul_mod_right users c
    constructor
    · rw [expectedBatches, if_pos hmod]
      simp
    · intro b hb
      rw [expectedBatches, if_pos hmod, List.append_nil] at hb
      simp only [List.mem_map, List.mem_range] at hb
      obtain ⟨k, _, hbk⟩ := hb
      rw [← hbk]
      simp
  · intro hdvd
    have hmod : total % users ≠ 0 := fun h => hdvd (Nat.dvd_of_mod_eq_zero h)
    refine ⟨?_, ?_, by simp, ?_⟩
    · rw [expectedBatches, if_neg hmod]
      simp
    · rw [expectedBatches, if_neg hmod]
      exact List.getLast?_concat _
    · intro b hb
      rw [expectedBatches, if_neg hmod, List.dropLast_concat] at hb
      simp only [List.mem_map, List.mem_range] at hb
      obtain ⟨k, _, hbk⟩ := hb
      rw [← hbk]
      simp

/-- Witness for C2 (amended) at requests 23, users 5: four full batches of
five and a final partial batch of three. -/
theorem c2_batches_w :
    run_batches 23 5 = .ok (expectedBatches 23 5, expectedProgress 23 5) :=
  (c2_batches_amended 23 5 (by norm_num) (by norm_num)).1

/-- C3: at requests 100, users 30, progress lines are emitted only after the
full batches ending at 30, 60 and 90 — three lines, not one per 10%
threshold as claimed. -/
theorem c3_progress_eval :
    run_batches 100 30 = .ok (expectedBatches 100 30, [30, 60, 90]) ∧
    [30, 60, 90].length ≠ 10 := by
  constructor
  · rfl
  · decide

end TitanCache
